import Mathlib

/-
  Verification of the telemetry logging pipeline of the PB-V1 repository.

  Shallow embedding of:
  - src/src/slog.cpp / src/include/slog.hpp : bounded ring-buffer SD logger
    (enqueue_line, writer task, init, close, ready, throttled_logf, stats);
  - src/include/logging/tuning_logger.hpp : rate throttling (set_log_rate,
    tuning_logger_tick);
  - src/include/logging/telemetry_adapter.hpp : single-use marker system
    (get_mark, set_waypoint_marker).

  Modelling conventions:
  - A C string (a line) is a `List Char` of its non-NUL characters.
  - The ring buffer `ring_buffer[QUEUE_SLOTS][LINE_BYTES]` is a function
    `Nat → Line` giving the C-string content of each slot; the byte-exact
    strncpy behaviour of `enqueue_line` is modelled separately (`strncpy_slot`)
    and related to the slot-content model (`truncLine`).
  - `uint32_t` counters (`stats.drops`, `stats.lines`) are kept reduced
    modulo 2^32.
  - The file is the list of lines appended so far; `fflush` only affects
    durability, not the sequence of appended lines, so it is not represented.
  - Concurrency: the mutex-protected regions of the code execute atomically;
    an execution is an arbitrary interleaving of producer calls
    (`enqueue_line`), single writer-task loop iterations (`writer_step`),
    and lifecycle calls (`init_op`, `close_op`).  `close`'s own mutations are
    modelled in `close_op`; the drain it waits for consists of concurrently
    interleaved `writer_step` events.
-/

namespace Slog

/-- Constant `slog::QUEUE_SLOTS` (slog.hpp line 24). -/
def QUEUE_SLOTS : Nat := 512

/-- Constant `slog::LINE_BYTES` (slog.hpp line 25). -/
def LINE_BYTES : Nat := 200

/-- Constant `slog::WRITER_HZ` (slog.hpp line 26). -/
def WRITER_HZ : Nat := 100

/-- Constant `slog::FLUSH_EVERY` (slog.hpp line 27). -/
def FLUSH_EVERY : Nat := 50

/-- A C-string value: the characters before the terminating NUL. -/
abbrev Line := List Char

/-- Modulus of the C `uint32_t` type used for `Stats.drops` / `Stats.lines`. -/
def U32 : Nat := 2 ^ 32

/-- Statistics record `slog::Stats` (slog.hpp lines 33-39). `queue_depth`, `queue_capacity`,
`high_water` are C `int`s that stay small; `drops` and `lines` are `uint32_t`,
kept reduced mod 2^32. -/
structure Stats where
  queue_depth : Nat
  queue_capacity : Nat
  high_water : Nat
  drops : Nat
  lines : Nat
deriving Repr, DecidableEq

/-- The file-scope mutable state of `slog.cpp` (lines 13-25), plus the
observable output `file`: the list of lines appended to the log file so far
(header included).  `logfile` is whether the `FILE*` handle is non-null. -/
structure SlogState where
  ring : Nat → Line
  write_idx : Nat
  read_idx : Nat
  logfile : Bool
  is_running : Bool
  stats : Stats
  file : List Line

/-- Helper `queue_size()` (slog.cpp lines 31-33): `(write_idx - read_idx +
QUEUE_SLOTS) % QUEUE_SLOTS` computed in C `int` arithmetic. -/
def queue_size_c (w r : Nat) : Nat :=
  (((w : Int) - (r : Int) + (QUEUE_SLOTS : Int)) % (QUEUE_SLOTS : Int)).toNat

/-- Value of `queue_size()` applied to a state. -/
def queue_size (s : SlogState) : Nat :=
  queue_size_c s.write_idx s.read_idx

/-- Helper `queue_full()` (slog.cpp lines 35-37). -/
def queue_full (s : SlogState) : Bool :=
  decide (queue_size s ≥ QUEUE_SLOTS - 1)

/-- Helper `queue_empty()` (slog.cpp lines 39-41). -/
def queue_empty (s : SlogState) : Bool :=
  decide (s.read_idx = s.write_idx)

/-- Predicate `slog::ready()` (slog.cpp lines 180-182): `is_running && logfile != nullptr`. -/
def ready (s : SlogState) : Bool :=
  s.is_running && s.logfile

/-- The C-string stored into a slot by
`strncpy(ring_buffer[write_idx], line, LINE_BYTES - 1);
 ring_buffer[write_idx][LINE_BYTES - 1] = NUL;`
(slog.cpp lines 198-199): the first `LINE_BYTES - 1` characters of the input. -/
def truncLine (l : Line) : Line :=
  l.take (LINE_BYTES - 1)

/-- Producer call `slog::enqueue_line` (slog.cpp lines 184-208).  Returns the new state and
the `bool` result. -/
def enqueue_line (l : Line) (s : SlogState) : SlogState × Bool :=
  if ready s = false then
    (s, false)
  else if queue_full s then
    ({ s with stats := { s.stats with drops := (s.stats.drops + 1) % U32 } }, false)
  else
    let ring' := Function.update s.ring s.write_idx (truncLine l)
    let w' := (s.write_idx + 1) % QUEUE_SLOTS
    ({ s with
        ring := ring'
        write_idx := w'
        stats := { s.stats with queue_depth := queue_size_c w' s.read_idx } },
     true)

/-- Outcome of one iteration of the writer-task loop. -/
inductive WriterAct where
  /-- The dequeue branch ran: the line was appended to the file. -/
  | wrote (l : Line)
  /-- The `else` branch ran: `pros::delay(1000 / WRITER_HZ)`, no state change. -/
  | slept
  /-- `is_running` was false: the `while` loop exits without an iteration. -/
  | exited
deriving Repr, DecidableEq

/-- One iteration of `writer_task_fn`'s loop (slog.cpp lines 50-83): observe
`queue_empty`/`queue_size` under the mutex; if there is data and the file
handle is valid, dequeue one line, append it to the file, bump `stats.lines`
and update the high-water mark with the observed depth; otherwise sleep one
tick.  (`fflush` every `FLUSH_EVERY` lines affects durability only and is not
represented in the appended-lines model.) -/
def writer_step (s : SlogState) : SlogState × WriterAct :=
  if s.is_running = false then
    (s, .exited)
  else
    let has_data := !queue_empty s
    let depth := queue_size s
    if has_data && s.logfile then
      let line := s.ring s.read_idx
      let r' := (s.read_idx + 1) % QUEUE_SLOTS
      let hw' := if depth > s.stats.high_water then depth else s.stats.high_water
      ({ s with
          read_idx := r'
          file := s.file ++ [line]
          stats := { s.stats with
                      lines := (s.stats.lines + 1) % U32
                      high_water := hw' } },
       .wrote line)
    else
      (s, .slept)

/-- Lifecycle call `slog::init` (slog.cpp lines 95-137).  `fopen_ok` abstracts whether
`fopen` on the timestamped filename succeeds (storage present); `header` is
the header line written (the caller's `header_csv`, or the default
`"v=1,t_ms,data"` when null).  On success the indices and stats are reset,
the task state becomes running, and the file holds just the header. -/
def init_op (fopen_ok : Bool) (header : Line) (s : SlogState) : SlogState × Bool :=
  if s.is_running then
    (s, false)
  else if fopen_ok = false then
    (s, false)
  else
    ({ s with
        write_idx := 0
        read_idx := 0
        logfile := true
        is_running := true
        stats := ⟨0, QUEUE_SLOTS, 0, 0, 0⟩
        file := [header] },
     true)

/-- Lifecycle call `slog::close` (slog.cpp lines 139-178).  When not running it returns at
once (line 140-142).  When running, the mutations `close` itself performs are
`is_running = false` and closing the file handle; the drain it waits on is the
concurrent writer task, i.e. interleaved `writer_step` events in a trace. -/
def close_op (s : SlogState) : SlogState :=
  if s.is_running = false then
    s
  else
    { s with is_running := false, logfile := false }

/-- The operations whose interleavings generate the reachable states:
producer `enqueue_line` calls, writer-task loop iterations, `init`, `close`. -/
inductive Ev where
  | enq (l : Line)
  | wstep
  | close
  | init (fopen_ok : Bool) (header : Line)

/-- Effect of one event on the state. -/
def step (s : SlogState) (e : Ev) : SlogState :=
  match e with
  | .enq l => (enqueue_line l s).1
  | .wstep => (writer_step s).1
  | .close => close_op s
  | .init ok h => (init_op ok h s).1

/-- Run a sequence of events. -/
def run (s : SlogState) (es : List Ev) : SlogState :=
  es.foldl step s

/-- The state of the static variables at program start: the `static` ring
buffer is zeroed (every slot reads as the empty C string), indices 0, no file,
not running, `stats = {0, QUEUE_SLOTS, 0, 0, 0}` (slog.cpp lines 13-22). -/
def boot : SlogState :=
  { ring := fun _ => []
    write_idx := 0
    read_idx := 0
    logfile := false
    is_running := false
    stats := ⟨0, QUEUE_SLOTS, 0, 0, 0⟩
    file := [] }

/-- Abstraction of the ring buffer to a list-based FIFO queue: the live
slots, oldest first. -/
def absQ (s : SlogState) : List Line :=
  (List.range (queue_size s)).map (fun i => s.ring ((s.read_idx + i) % QUEUE_SLOTS))

/-- Events of a single running session: producer enqueues and writer
iterations only. -/
def sessionEv : Ev → Bool
  | .enq _ => true
  | .wstep => true
  | _ => false

/-- The successfully enqueued lines of a trace (those calls where
`enqueue_line` returned true), in call order. -/
def enqOKs (s : SlogState) : List Ev → List Line
  | [] => []
  | e :: es =>
    (match e with
     | .enq l => if (enqueue_line l s).2 then [l] else []
     | _ => []) ++ enqOKs (step s e) es

/-- The lines the writer task appended to the file during a trace, in order. -/
def wroteLines (s : SlogState) : List Ev → List Line
  | [] => []
  | e :: es =>
    (match e with
     | .wstep =>
       match (writer_step s).2 with
       | .wrote l => [l]
       | _ => []
     | _ => []) ++ wroteLines (step s e) es

/-- The queue depths observed by the writer task at its dequeue iterations
during a trace (the `depth` read under the mutex at slog.cpp line 54, used to
update the high-water mark at lines 76-78). -/
def observedDepths (s : SlogState) : List Ev → List Nat
  | [] => []
  | e :: es =>
    (match e with
     | .wstep =>
       match (writer_step s).2 with
       | .wrote _ => [queue_size s]
       | _ => []
     | _ => []) ++ observedDepths (step s e) es

/-- Index bounds maintained by every operation (both indices are always
reduced mod `QUEUE_SLOTS`). -/
def Inv (s : SlogState) : Prop :=
  s.write_idx < QUEUE_SLOTS ∧ s.read_idx < QUEUE_SLOTS

end Slog

namespace Slog

theorem queue_size_c_eq (w r : Nat) (hw : w < QUEUE_SLOTS) (hr : r < QUEUE_SLOTS) :
    queue_size_c w r = (w + QUEUE_SLOTS - r) % QUEUE_SLOTS := by
  unfold queue_size_c QUEUE_SLOTS at *
  omega

theorem queue_size_c_lt (w r : Nat) (hw : w < QUEUE_SLOTS) (hr : r < QUEUE_SLOTS) :
    queue_size_c w r < QUEUE_SLOTS := by
  unfold queue_size_c QUEUE_SLOTS at *
  omega

theorem queue_size_c_eq_zero_iff (w r : Nat) (hw : w < QUEUE_SLOTS) (hr : r < QUEUE_SLOTS) :
    queue_size_c w r = 0 ↔ r = w := by
  unfold queue_size_c QUEUE_SLOTS at *
  omega

theorem queue_size_c_succ (w r : Nat) (hw : w < QUEUE_SLOTS) (hr : r < QUEUE_SLOTS)
    (h : queue_size_c w r < QUEUE_SLOTS - 1) :
    queue_size_c ((w + 1) % QUEUE_SLOTS) r = queue_size_c w r + 1 := by
  unfold queue_size_c QUEUE_SLOTS at *
  omega

theorem queue_size_c_pred (w r : Nat) (hw : w < QUEUE_SLOTS) (hr : r < QUEUE_SLOTS)
    (h : 0 < queue_size_c w r) :
    queue_size_c w ((r + 1) % QUEUE_SLOTS) = queue_size_c w r - 1 := by
  unfold queue_size_c QUEUE_SLOTS at *
  omega

theorem slot_ne_write (w r i : Nat) (hw : w < QUEUE_SLOTS) (hr : r < QUEUE_SLOTS)
    (hi : i < queue_size_c w r) :
    (r + i) % QUEUE_SLOTS ≠ w := by
  unfold queue_size_c QUEUE_SLOTS at *
  omega

theorem slot_at_size (w r : Nat) (hw : w < QUEUE_SLOTS) (hr : r < QUEUE_SLOTS) :
    (r + queue_size_c w r) % QUEUE_SLOTS = w := by
  unfold queue_size_c QUEUE_SLOTS at *
  omega

theorem read_shift (r i : Nat) :
    ((r + 1) % QUEUE_SLOTS + i) % QUEUE_SLOTS = (r + (i + 1)) % QUEUE_SLOTS := by
  unfold QUEUE_SLOTS
  omega

end Slog

namespace Slog

theorem enqueue_line_not_ready (l : Line) (s : SlogState) (h : ready s = false) :
    enqueue_line l s = (s, false) := by
  simp [enqueue_line, h]

theorem enqueue_line_full_eq (l : Line) (s : SlogState)
    (hready : ready s = true) (hfull : queue_full s = true) :
    enqueue_line l s =
      ({ s with stats := { s.stats with drops := (s.stats.drops + 1) % U32 } }, false) := by
  simp [enqueue_line, hready, hfull]

theorem enqueue_line_success_eq (l : Line) (s : SlogState)
    (hready : ready s = true) (hfull : queue_full s = false) :
    enqueue_line l s =
      ({ s with
          ring := Function.update s.ring s.write_idx (truncLine l)
          write_idx := (s.write_idx + 1) % QUEUE_SLOTS
          stats := { s.stats with
                      queue_depth :=
                        queue_size_c ((s.write_idx + 1) % QUEUE_SLOTS) s.read_idx } },
       true) := by
  simp [enqueue_line, hready, hfull]

theorem writer_step_not_running (s : SlogState) (h : s.is_running = false) :
    writer_step s = (s, .exited) := by
  simp [writer_step, h]

theorem writer_step_sleep (s : SlogState) (hrun : s.is_running = true)
    (h : queue_empty s = true ∨ s.logfile = false) :
    writer_step s = (s, .slept) := by
  rcases h with h | h <;> simp [writer_step, hrun, h]

theorem writer_step_wrote_eq (s : SlogState) (hrun : s.is_running = true)
    (hlog : s.logfile = true) (hne : queue_empty s = false) :
    writer_step s =
      ({ s with
          read_idx := (s.read_idx + 1) % QUEUE_SLOTS
          file := s.file ++ [s.ring s.read_idx]
          stats := { s.stats with
                      lines := (s.stats.lines + 1) % U32
                      high_water :=
                        if queue_size s > s.stats.high_water then queue_size s
                        else s.stats.high_water } },
       .wrote (s.ring s.read_idx)) := by
  simp [writer_step, hrun, hlog, hne]

theorem ring_abs_push (ringf : Nat → Line) (w r : Nat) (l : Line)
    (hw : w < QUEUE_SLOTS) (hr : r < QUEUE_SLOTS) (hn : queue_size_c w r < QUEUE_SLOTS - 1) :
    (List.range (queue_size_c ((w + 1) % QUEUE_SLOTS) r)).map
        (fun i => Function.update ringf w l ((r + i) % QUEUE_SLOTS))
      = (List.range (queue_size_c w r)).map (fun i => ringf ((r + i) % QUEUE_SLOTS)) ++ [l] := by
  rw [queue_size_c_succ w r hw hr hn, List.range_succ, List.map_append]
  have h1 : ∀ i ∈ List.range (queue_size_c w r),
      Function.update ringf w l ((r + i) % QUEUE_SLOTS) = ringf ((r + i) % QUEUE_SLOTS) := by
    intro i hi
    rw [List.mem_range] at hi
    exact Function.update_noteq (slot_ne_write w r i hw hr hi) l ringf
  rw [List.map_congr_left h1]
  rw [List.map_singleton, slot_at_size w r hw hr, Function.update_same]

theorem ring_abs_pop (ringf : Nat → Line) (w r : Nat)
    (hw : w < QUEUE_SLOTS) (hr : r < QUEUE_SLOTS) (hn : 0 < queue_size_c w r) :
    (List.range (queue_size_c w r)).map (fun i => ringf ((r + i) % QUEUE_SLOTS))
      = ringf r ::
        (List.range (queue_size_c w ((r + 1) % QUEUE_SLOTS))).map
          (fun i => ringf (((r + 1) % QUEUE_SLOTS + i) % QUEUE_SLOTS)) := by
  rw [queue_size_c_pred w r hw hr hn]
  obtain ⟨m, hm⟩ : ∃ m, queue_size_c w r = m + 1 :=
    ⟨queue_size_c w r - 1, (Nat.succ_pred_eq_of_pos hn).symm⟩
  rw [hm, Nat.add_sub_cancel, List.range_succ_eq_map, List.map_cons, List.map_map]
  congr 1
  · simp [Nat.mod_eq_of_lt hr]
  · apply List.map_congr_left
    intro i hi
    simp only [Function.comp_apply]
    rw [read_shift r i]

end Slog

namespace Slog

theorem not_full_size (s : SlogState) (hfull : queue_full s = false) :
    queue_size s < QUEUE_SLOTS - 1 := by
  have := of_decide_eq_false hfull
  omega

theorem not_empty_size (s : SlogState) (hw : s.write_idx < QUEUE_SLOTS)
    (hr : s.read_idx < QUEUE_SLOTS) (hne : queue_empty s = false) :
    0 < queue_size s := by
  have h1 : ¬ s.read_idx = s.write_idx := of_decide_eq_false hne
  have h2 := queue_size_c_eq_zero_iff s.write_idx s.read_idx hw hr
  unfold queue_size
  omega

theorem absQ_enqueue (l : Line) (s : SlogState) (hw : s.write_idx < QUEUE_SLOTS)
    (hr : s.read_idx < QUEUE_SLOTS) (hready : ready s = true) (hfull : queue_full s = false) :
    absQ (enqueue_line l s).1 = absQ s ++ [truncLine l] := by
  have hn : queue_size s < QUEUE_SLOTS - 1 := not_full_size s hfull
  rw [enqueue_line_success_eq l s hready hfull]
  exact ring_abs_push s.ring s.write_idx s.read_idx (truncLine l) hw hr hn

theorem absQ_dequeue (s : SlogState) (hw : s.write_idx < QUEUE_SLOTS)
    (hr : s.read_idx < QUEUE_SLOTS) (hrun : s.is_running = true)
    (hlog : s.logfile = true) (hne : queue_empty s = false) :
    absQ s = s.ring s.read_idx :: absQ (writer_step s).1 := by
  have hn : 0 < queue_size s := not_empty_size s hw hr hne
  rw [writer_step_wrote_eq s hrun hlog hne]
  exact ring_abs_pop s.ring s.write_idx s.read_idx hw hr hn

theorem Inv_step (s : SlogState) (e : Ev) (h : Inv s) : Inv (step s e) := by
  have hQ : 0 < QUEUE_SLOTS := by unfold QUEUE_SLOTS; omega
  cases e with
  | enq l =>
    simp only [step]
    rcases Bool.eq_false_or_eq_true (ready s) with hready | hready
    · rcases Bool.eq_false_or_eq_true (queue_full s) with hfull | hfull
      · rw [enqueue_line_full_eq l s hready hfull]; exact h
      · rw [enqueue_line_success_eq l s hready hfull]
        exact ⟨Nat.mod_lt _ hQ, h.2⟩
    · rw [enqueue_line_not_ready l s hready]; exact h
  | wstep =>
    simp only [step]
    rcases Bool.eq_false_or_eq_true s.is_running with hrun | hrun
    · rcases Bool.eq_false_or_eq_true s.logfile with hlog | hlog
      · rcases Bool.eq_false_or_eq_true (queue_empty s) with hne | hne
        · rw [writer_step_sleep s hrun (Or.inl hne)]; exact h
        · rw [writer_step_wrote_eq s hrun hlog hne]
          exact ⟨h.1, Nat.mod_lt _ hQ⟩
      · rw [writer_step_sleep s hrun (Or.inr hlog)]; exact h
    · rw [writer_step_not_running s hrun]; exact h
  | close =>
    simp only [step]
    unfold close_op
    split
    · exact h
    · exact h
  | init ok hd =>
    simp only [step]
    unfold init_op
    split
    · exact h
    · split
      · exact h
      · exact ⟨hQ, hQ⟩

end Slog


namespace Slog

theorem run_nil (s : SlogState) : run s [] = s := rfl

theorem run_cons (s : SlogState) (e : Ev) (es : List Ev) :
    run s (e :: es) = run (step s e) es := rfl

theorem wroteLines_cons_enq (s : SlogState) (l : Line) (es : List Ev) :
    wroteLines s (.enq l :: es) = wroteLines (step s (.enq l)) es := rfl

theorem wroteLines_cons_wstep (s : SlogState) (es : List Ev) :
    wroteLines s (.wstep :: es) =
      (match (writer_step s).2 with
       | .wrote l => [l]
       | _ => []) ++ wroteLines (step s .wstep) es := rfl

theorem enqOKs_cons_enq (s : SlogState) (l : Line) (es : List Ev) :
    enqOKs s (.enq l :: es) =
      (if (enqueue_line l s).2 then [l] else []) ++ enqOKs (step s (.enq l)) es := rfl

theorem enqOKs_cons_wstep (s : SlogState) (es : List Ev) :
    enqOKs s (.wstep :: es) = enqOKs (step s .wstep) es := rfl

theorem step_enq (s : SlogState) (l : Line) : step s (.enq l) = (enqueue_line l s).1 := rfl

theorem step_wstep (s : SlogState) : step s .wstep = (writer_step s).1 := rfl

theorem fifo_invariant (es : List Ev) (s : SlogState)
    (hsess : ∀ e ∈ es, sessionEv e = true) (h : Inv s) :
    (run s es).file = s.file ++ wroteLines s es ∧
    wroteLines s es ++ absQ (run s es) = absQ s ++ (enqOKs s es).map truncLine ∧
    Inv (run s es) := by
  induction es generalizing s with
  | nil => simpa [run, wroteLines, enqOKs] using h
  | cons e es ih =>
    have hsess' : ∀ e' ∈ es, sessionEv e' = true :=
      fun e' he' => hsess e' (List.mem_cons_of_mem _ he')
    have hse : sessionEv e = true := hsess e (List.mem_cons_self _ _)
    cases e with
    | enq l =>
      obtain ⟨ihf, ihq, ihi⟩ :=
        ih (enqueue_line l s).1 hsess' (Inv_step s (.enq l) h)
      rw [run_cons, wroteLines_cons_enq, enqOKs_cons_enq, step_enq]
      rcases Bool.eq_false_or_eq_true (ready s) with hready | hready
      · rcases Bool.eq_false_or_eq_true (queue_full s) with hfull | hfull
        · -- queue full: line dropped, queue and file unchanged
          have he := enqueue_line_full_eq l s hready hfull
          have habs : absQ (enqueue_line l s).1 = absQ s := by rw [he]; rfl
          have hfile : (enqueue_line l s).1.file = s.file := by rw [he]
          have hok : (enqueue_line l s).2 = false := by rw [he]
          rw [hok]
          refine ⟨by rw [ihf, hfile], ?_, ihi⟩
          rw [ihq, habs]
          simp
        · -- success: line appended at the back of the abstract queue
          have habs := absQ_enqueue l s h.1 h.2 hready hfull
          have hfile : (enqueue_line l s).1.file = s.file := by
            rw [enqueue_line_success_eq l s hready hfull]
          have hok : (enqueue_line l s).2 = true := by
            rw [enqueue_line_success_eq l s hready hfull]
          rw [hok]
          refine ⟨by rw [ihf, hfile], ?_, ihi⟩
          rw [ihq, habs]
          simp
      · -- not ready: call rejected, state unchanged
        have he := enqueue_line_not_ready l s hready
        have hok : (enqueue_line l s).2 = false := by rw [he]
        have hst : (enqueue_line l s).1 = s := by rw [he]
        rw [hst] at ihf ihq ihi
        rw [hok, hst]
        refine ⟨ihf, ?_, ihi⟩
        rw [ihq]
        simp
    | wstep =>
      obtain ⟨ihf, ihq, ihi⟩ :=
        ih (writer_step s).1 hsess' (Inv_step s .wstep h)
      rw [run_cons, wroteLines_cons_wstep, enqOKs_cons_wstep, step_wstep]
      rcases Bool.eq_false_or_eq_true s.is_running with hrun | hrun
      · rcases Bool.eq_false_or_eq_true s.logfile with hlog | hlog
        · rcases Bool.eq_false_or_eq_true (queue_empty s) with hne | hne
          · -- queue empty: writer sleeps, nothing changes
            have he := writer_step_sleep s hrun (Or.inl hne)
            have hact : (writer_step s).2 = .slept := by rw [he]
            have hst : (writer_step s).1 = s := by rw [he]
            rw [hst] at ihf ihq ihi
            rw [hact, hst]
            exact ⟨by simpa using ihf, by simpa using ihq, ihi⟩
          · -- dequeue: the head of the abstract queue moves to the file
            have hact : (writer_step s).2 = .wrote (s.ring s.read_idx) := by
              rw [writer_step_wrote_eq s hrun hlog hne]
            have hfile : (writer_step s).1.file = s.file ++ [s.ring s.read_idx] := by
              rw [writer_step_wrote_eq s hrun hlog hne]
            have habs := absQ_dequeue s h.1 h.2 hrun hlog hne
            rw [hact]
            refine ⟨?_, ?_, ihi⟩
            · rw [ihf, hfile]
              simp
            · rw [List.singleton_append, List.cons_append, ihq, habs]
              simp
        · -- file handle invalid: writer sleeps, nothing changes
          have he := writer_step_sleep s hrun (Or.inr hlog)
          have hact : (writer_step s).2 = .slept := by rw [he]
          have hst : (writer_step s).1 = s := by rw [he]
          rw [hst] at ihf ihq ihi
          rw [hact, hst]
          exact ⟨by simpa using ihf, by simpa using ihq, ihi⟩
      · -- not running: the loop exits without touching anything
        have he := writer_step_not_running s hrun
        have hact : (writer_step s).2 = .exited := by rw [he]
        have hst : (writer_step s).1 = s := by rw [he]
        rw [hst] at ihf ihq ihi
        rw [hact, hst]
        exact ⟨by simpa using ihf, by simpa using ihq, ihi⟩
    | close => simp [sessionEv] at hse
    | init ok hd => simp [sessionEv] at hse

end Slog

namespace Slog

theorem Inv_run (es : List Ev) (s : SlogState) (h : Inv s) : Inv (run s es) := by
  induction es generalizing s with
  | nil => exact h
  | cons e es ih => exact ih (step s e) (Inv_step s e h)

theorem Inv_boot : Inv boot := ⟨by decide, by decide⟩

theorem absQ_length (s : SlogState) : (absQ s).length = queue_size s := by
  unfold absQ
  simp

theorem queue_size_le (s : SlogState) (h : Inv s) : queue_size s ≤ QUEUE_SLOTS - 1 := by
  have := queue_size_c_lt s.write_idx s.read_idx h.1 h.2
  unfold queue_size QUEUE_SLOTS at *
  omega

theorem queue_full_false_of_lt (s : SlogState) (h : queue_size s < QUEUE_SLOTS - 1) :
    queue_full s = false := by
  unfold queue_full
  simp only [decide_eq_false_iff_not]
  omega

theorem Inv_enqueue (l : Line) (s : SlogState) (h : Inv s) : Inv (enqueue_line l s).1 :=
  Inv_step s (.enq l) h

theorem queue_size_enqueue (l : Line) (s : SlogState) (h : Inv s)
    (hready : ready s = true) (hfull : queue_full s = false) :
    queue_size (enqueue_line l s).1 = queue_size s + 1 := by
  rw [enqueue_line_success_eq l s hready hfull]
  exact queue_size_c_succ s.write_idx s.read_idx h.1 h.2 (not_full_size s hfull)

theorem ready_enqueue (l : Line) (s : SlogState) : ready (enqueue_line l s).1 = ready s := by
  rcases Bool.eq_false_or_eq_true (ready s) with hready | hready
  · rcases Bool.eq_false_or_eq_true (queue_full s) with hfull | hfull
    · rw [enqueue_line_full_eq l s hready hfull]; rfl
    · rw [enqueue_line_success_eq l s hready hfull]; rfl
  · rw [enqueue_line_not_ready l s hready]

theorem enqueue_no_overrun (l : Line) (s : SlogState) (h : Inv s)
    (hok : (enqueue_line l s).2 = true) :
    (enqueue_line l s).1.write_idx ≠ (enqueue_line l s).1.read_idx := by
  rcases Bool.eq_false_or_eq_true (ready s) with hready | hready
  · rcases Bool.eq_false_or_eq_true (queue_full s) with hfull | hfull
    · rw [enqueue_line_full_eq l s hready hfull] at hok
      simp at hok
    · rw [enqueue_line_success_eq l s hready hfull]
      show (s.write_idx + 1) % QUEUE_SLOTS ≠ s.read_idx
      intro hcontra
      have h1 := queue_size_c_succ s.write_idx s.read_idx h.1 h.2 (not_full_size s hfull)
      have hlt : (s.write_idx + 1) % QUEUE_SLOTS < QUEUE_SLOTS :=
        Nat.mod_lt _ (by unfold QUEUE_SLOTS; omega)
      have h0 : queue_size_c ((s.write_idx + 1) % QUEUE_SLOTS) s.read_idx = 0 :=
        (queue_size_c_eq_zero_iff _ s.read_idx hlt h.2).mpr hcontra.symm
      omega
  · rw [enqueue_line_not_ready l s hready] at hok
    simp at hok

end Slog

namespace Telem

/-- Rate setter `telem::set_log_rate` (tuning_logger.hpp lines 46-52), returning the
divisor it stores into `log_div()` (1 = 100 Hz, 2 = 50 Hz, 4 = 25 Hz,
10 = 10 Hz; anything else falls back to 1). -/
def set_log_rate (hz : Nat) : Nat :=
  if hz = 100 then 1
  else if hz = 50 then 2
  else if hz = 25 then 4
  else if hz = 10 then 10
  else 1

/-- Throttled producer `slog::throttled_logf(n, fmt, ...)` (slog.cpp lines 224-250) with the
static `counter` threaded explicitly.  If the logger is not ready it returns
before touching the counter; otherwise the counter is incremented and the
formatted line (vsnprintf into a LINE_BYTES buffer, hence truncated to
LINE_BYTES-1 chars) is enqueued on every n-th count.  Returns
(slog state, counter, whether a line was enqueued).  The static
`logged_count` only feeds printf and is omitted. -/
def throttled_logf (n : Nat) (line : Slog.Line) (s : Slog.SlogState) (counter : Nat) :
    Slog.SlogState × Nat × Bool :=
  if Slog.ready s = false then
    (s, counter, false)
  else if (counter + 1) % n ≠ 0 then
    (s, counter + 1, false)
  else
    ((Slog.enqueue_line (Slog.truncLine line) s).1, counter + 1,
     (Slog.enqueue_line (Slog.truncLine line) s).2)

/-- Tick entry point `telem::tuning_logger_tick` (tuning_logger.hpp lines 89-108) with the
sampled-and-formatted CSV row abstracted as `row` (the sensor reads and
`format_row` only produce the row text).  Checks `slog::ready`, then calls
`slog::throttled_logf(log_div(), "%s", line)`. -/
def tuning_logger_tick (div : Nat) (row : Slog.Line) (s : Slog.SlogState) (counter : Nat) :
    Slog.SlogState × Nat × Bool :=
  if Slog.ready s = false then
    (s, counter, false)
  else
    throttled_logf div row s counter

/-- Running `n` consecutive calls of `tuning_logger_tick` at the tick source, with
`rows i` the row formatted on tick `i`.  Returns the final slog state, the
final throttle counter, and how many of the calls enqueued a line. -/
def tickRun (div : Nat) (rows : Nat → Slog.Line) (s : Slog.SlogState) (counter : Nat) :
    Nat → Slog.SlogState × Nat × Nat
  | 0 => (s, counter, 0)
  | n + 1 =>
    ((tuning_logger_tick div (rows n) (tickRun div rows s counter n).1
        (tickRun div rows s counter n).2.1).1,
     (tuning_logger_tick div (rows n) (tickRun div rows s counter n).1
        (tickRun div rows s counter n).2.1).2.1,
     (tickRun div rows s counter n).2.2 +
       if (tuning_logger_tick div (rows n) (tickRun div rows s counter n).1
             (tickRun div rows s counter n).2.1).2.2 then 1 else 0)

/-- Marker state of telemetry_adapter.hpp (lines 90-91): the pending marker
buffer (`marker_buf`, 32 bytes, so at most 31 chars) and the waypoint counter
(`marker_idx`). -/
structure MarkerState where
  buf : String
  idx : Nat
deriving Repr, DecidableEq

/-- Reader `telem::get_mark` (telemetry_adapter.hpp lines 99-110): returns "" when no
marker is pending; otherwise returns the marker (strncpy into a 32-byte temp,
hence at most 31 chars) and clears `marker_buf`. -/
def get_mark (m : MarkerState) : MarkerState × String :=
  if m.buf = "" then
    (m, "")
  else
    ({ m with buf := "" }, m.buf.take 31)

/-- Setter `telem::set_waypoint_marker` (telemetry_adapter.hpp lines 116-119):
increments `marker_idx` and snprintf-formats "MARK:wp=N" into the 32-byte
buffer (truncated to 31 chars). -/
def set_waypoint_marker (m : MarkerState) : MarkerState :=
  { buf := ("MARK:wp=" ++ toString (m.idx + 1)).take 31, idx := m.idx + 1 }

/-- Marker state at program start: `marker_buf` empty, `marker_idx` 0. -/
def marker_boot : MarkerState := ⟨"", 0⟩

end Telem

namespace Slog

/-- The NUL byte. -/
def nulChar : Char := Char.ofNat 0

/-- Byte-level model of the slot update in `enqueue_line` (slog.cpp lines
198-199): `strncpy(ring_buffer[write_idx], line, LINE_BYTES - 1)` writes
min(len, LINE_BYTES-1) source characters and pads the remainder of the first
LINE_BYTES-1 bytes with NUL; the following statement stores NUL at offset
LINE_BYTES-1.  The result is the full LINE_BYTES-byte slot. -/
def strncpy_slot (src : Line) : Line :=
  src.take (LINE_BYTES - 1)
    ++ List.replicate ((LINE_BYTES - 1) - min src.length (LINE_BYTES - 1)) nulChar
    ++ [nulChar]

/-- Reading a slot as a C string: the bytes before the first NUL. -/
def c_str (slot : Line) : Line :=
  slot.takeWhile (fun c => c != nulChar)

theorem c_str_append_replicate (A : Line) (m : Nat) (hA : ∀ a ∈ A, a ≠ nulChar) :
    c_str (A ++ List.replicate (m + 1) nulChar) = A := by
  induction A with
  | nil =>
    simp [c_str, List.replicate_succ]
  | cons a as ih =>
    have ha : (a != nulChar) = true := by
      simpa using hA a (List.mem_cons_self a as)
    have ih' := ih (fun x hx => hA x (List.mem_cons_of_mem a hx))
    simp only [List.cons_append, c_str, List.takeWhile_cons, ha, if_true]
    unfold c_str at ih'
    rw [ih']

theorem strncpy_slot_shape (src : Line) :
    strncpy_slot src =
      src.take (LINE_BYTES - 1)
        ++ List.replicate ((LINE_BYTES - 1) - min src.length (LINE_BYTES - 1) + 1) nulChar := by
  unfold strncpy_slot
  rw [List.replicate_succ' ((LINE_BYTES - 1) - min src.length (LINE_BYTES - 1)) nulChar]
  simp [List.append_assoc]

end Slog

namespace Slog

/-- Iterating the writer-task loop body. -/
def iterWriter : Nat → SlogState → SlogState
  | 0, s => s
  | n + 1, s => iterWriter n (writer_step s).1

/-- Concrete ready state whose queue is full (live count QUEUE_SLOTS-1). -/
def fullState : SlogState :=
  { ring := fun _ => []
    write_idx := QUEUE_SLOTS - 1
    read_idx := 0
    logfile := true
    is_running := true
    stats := ⟨QUEUE_SLOTS - 1, QUEUE_SLOTS, 0, 0, 0⟩
    file := [] }

/-- Concrete running state whose file handle has become invalid
(storage removed mid-session). -/
def pulledState : SlogState := { boot with is_running := true }

/-- C3 (amended): for calls made while `ready()` is true, `stats.drops` is
incremented by exactly one on every `enqueue_line` call that returns false and
is unchanged on calls that return true; an `enqueue_line` call made while not
ready returns false leaving all stats unchanged; `stats.lines` is incremented
by exactly one for every line the writer task appends and both counters are
unchanged by non-writing writer iterations and by `close`. -/
theorem C3_counter_accounting (l : Line) (s : SlogState) :
    (ready s = true → (enqueue_line l s).2 = false →
        (enqueue_line l s).1.stats.drops = (s.stats.drops + 1) % U32 ∧
        (enqueue_line l s).1.stats.lines = s.stats.lines) ∧
    ((enqueue_line l s).2 = true →
        (enqueue_line l s).1.stats.drops = s.stats.drops ∧
        (enqueue_line l s).1.stats.lines = s.stats.lines) ∧
    (ready s = false → (enqueue_line l s).1.stats = s.stats) ∧
    (∀ l', (writer_step s).2 = WriterAct.wrote l' →
        (writer_step s).1.stats.lines = (s.stats.lines + 1) % U32 ∧
        (writer_step s).1.stats.drops = s.stats.drops) ∧
    ((writer_step s).2 = WriterAct.slept ∨ (writer_step s).2 = WriterAct.exited →
        (writer_step s).1.stats = s.stats) ∧
    (close_op s).stats = s.stats := by
  refine ⟨?_, ?_, ?_, ?_, ?_, ?_⟩
  · intro hready hfalse
    rcases Bool.eq_false_or_eq_true (queue_full s) with hfull | hfull
    · rw [enqueue_line_full_eq l s hready hfull]
      exact ⟨rfl, rfl⟩
    · rw [enqueue_line_success_eq l s hready hfull] at hfalse
      simp at hfalse
  · intro htrue
    rcases Bool.eq_false_or_eq_true (ready s) with hready | hready
    · rcases Bool.eq_false_or_eq_true (queue_full s) with hfull | hfull
      · rw [enqueue_line_full_eq l s hready hfull] at htrue
        simp at htrue
      · rw [enqueue_line_success_eq l s hready hfull]
        exact ⟨rfl, rfl⟩
    · rw [enqueue_line_not_ready l s hready] at htrue
      simp at htrue
  · intro hready
    rw [enqueue_line_not_ready l s hready]
  · intro l' hw
    rcases Bool.eq_false_or_eq_true s.is_running with hrun | hrun
    · rcases Bool.eq_false_or_eq_true s.logfile with hlog | hlog
      · rcases Bool.eq_false_or_eq_true (queue_empty s) with hne | hne
        · rw [writer_step_sleep s hrun (Or.inl hne)] at hw
          simp at hw
        · rw [writer_step_wrote_eq s hrun hlog hne]
          exact ⟨rfl, rfl⟩
      · rw [writer_step_sleep s hrun (Or.inr hlog)] at hw
        simp at hw
    · rw [writer_step_not_running s hrun] at hw
      simp at hw
  · intro hna
    rcases Bool.eq_false_or_eq_true s.is_running with hrun | hrun
    · rcases Bool.eq_false_or_eq_true s.logfile with hlog | hlog
      · rcases Bool.eq_false_or_eq_true (queue_empty s) with hne | hne
        · rw [writer_step_sleep s hrun (Or.inl hne)]
        · rw [writer_step_wrote_eq s hrun hlog hne] at hna
          simp at hna
      · rw [writer_step_sleep s hrun (Or.inr hlog)]
    · rw [writer_step_not_running s hrun]
  · unfold close_op
    split
    · rfl
    · rfl

/-- C3 counterexample: at program start (not ready) `enqueue_line` returns
false yet `stats.drops` is unchanged, so "drops is incremented by exactly one
on every call to enqueue_line that returns false" fails as stated. -/
theorem C3_counterexample :
    (enqueue_line [Char.ofNat 97] boot).2 = false ∧
    (enqueue_line [Char.ofNat 97] boot).1.stats.drops = boot.stats.drops ∧
    boot.stats.drops = 0 :=
  ⟨by decide, by decide, by decide⟩

/-- C3 witness: a full ready queue; the rejected call bumps drops by one and
leaves lines alone. -/
theorem C3_counter_accounting_witness :
    ready fullState = true ∧ (enqueue_line [Char.ofNat 97] fullState).2 = false ∧
    (enqueue_line [Char.ofNat 97] fullState).1.stats.drops =
      (fullState.stats.drops + 1) % U32 ∧
    (enqueue_line [Char.ofNat 97] fullState).1.stats.lines = fullState.stats.lines :=
  ⟨by decide, by decide,
   ((C3_counter_accounting [Char.ofNat 97] fullState).1 (by decide) (by decide)).1,
   ((C3_counter_accounting [Char.ofNat 97] fullState).1 (by decide) (by decide)).2⟩

/-- C4: calling `enqueue_line` while ready with the queue full (live count
QUEUE_SLOTS-1) returns false, increments only `stats.drops`, and leaves the
ring contents, both indices, every other stats field, the file, and the
lifecycle flags unchanged — the incoming line is discarded and no stored line
is overwritten. -/
theorem C4_drop_newest (l : Line) (s : SlogState)
    (hready : ready s = true) (hfull : queue_size s = QUEUE_SLOTS - 1) :
    (enqueue_line l s).2 = false ∧
    (enqueue_line l s).1.ring = s.ring ∧
    (enqueue_line l s).1.write_idx = s.write_idx ∧
    (enqueue_line l s).1.read_idx = s.read_idx ∧
    (enqueue_line l s).1.stats.queue_depth = s.stats.queue_depth ∧
    (enqueue_line l s).1.stats.queue_capacity = s.stats.queue_capacity ∧
    (enqueue_line l s).1.stats.high_water = s.stats.high_water ∧
    (enqueue_line l s).1.stats.lines = s.stats.lines ∧
    (enqueue_line l s).1.stats.drops = (s.stats.drops + 1) % U32 ∧
    (enqueue_line l s).1.file = s.file ∧
    (enqueue_line l s).1.logfile = s.logfile ∧
    (enqueue_line l s).1.is_running = s.is_running ∧
    absQ (enqueue_line l s).1 = absQ s := by
  have hfullb : queue_full s = true := by
    unfold queue_full
    rw [hfull]
    simp
  rw [enqueue_line_full_eq l s hready hfullb]
  exact ⟨rfl, rfl, rfl, rfl, rfl, rfl, rfl, rfl, rfl, rfl, rfl, rfl, rfl⟩

/-- C4 witness at a concrete full state. -/
theorem C4_drop_newest_witness :
    ready fullState = true ∧ queue_size fullState = QUEUE_SLOTS - 1 ∧
    (enqueue_line [Char.ofNat 97] fullState).2 = false ∧
    (enqueue_line [Char.ofNat 97] fullState).1.write_idx = fullState.write_idx ∧
    (enqueue_line [Char.ofNat 97] fullState).1.read_idx = fullState.read_idx ∧
    absQ (enqueue_line [Char.ofNat 97] fullState).1 = absQ fullState :=
  ⟨by decide, by decide,
   (C4_drop_newest [Char.ofNat 97] fullState (by decide) (by decide)).1,
   (C4_drop_newest [Char.ofNat 97] fullState (by decide) (by decide)).2.2.1,
   (C4_drop_newest [Char.ofNat 97] fullState (by decide) (by decide)).2.2.2.1,
   (C4_drop_newest [Char.ofNat 97] fullState (by decide) (by decide)).2.2.2.2.2.2.2.2.2.2.2.2⟩

/-- C7: `close()` on a Stopped session is a no-op — the state (queue indices,
ring contents, stats, file, flags) is returned unchanged — and hence
`close(); close()` coincides with a single `close()`. -/
theorem C7_close_idempotent :
    (∀ s : SlogState, s.is_running = false → close_op s = s) ∧
    (∀ s : SlogState, close_op (close_op s) = close_op s) := by
  constructor
  · intro s hs
    unfold close_op
    rw [hs]
    simp
  · intro s
    rcases Bool.eq_false_or_eq_true s.is_running with hrun | hrun
    · simp [close_op, hrun]
    · simp [close_op, hrun]

/-- C7 witness at the boot (Stopped) state. -/
theorem C7_close_idempotent_witness :
    boot.is_running = false ∧ close_op boot = boot :=
  ⟨by decide, C7_close_idempotent.1 boot (by decide)⟩

/-- C9: once the file handle is invalid, every subsequent writer-task
iteration leaves the state (in particular the file) untouched, `ready()`
reports false, and a running non-writing iteration takes the sleep branch
(one-tick delay) rather than writing or spinning. -/
theorem C9_writer_failure (s : SlogState) (hlog : s.logfile = false) :
    ready s = false ∧
    (∀ n, iterWriter n s = s) ∧
    (∀ n, (iterWriter n s).file = s.file) ∧
    (s.is_running = true → (writer_step s).2 = WriterAct.slept) := by
  have hfix : (writer_step s).1 = s := by
    rcases Bool.eq_false_or_eq_true s.is_running with hrun | hrun
    · rw [writer_step_sleep s hrun (Or.inr hlog)]
    · rw [writer_step_not_running s hrun]
  have hiter : ∀ n, iterWriter n s = s := by
    intro n
    induction n with
    | zero => rfl
    | succ n ih =>
      show iterWriter n (writer_step s).1 = s
      rw [hfix]
      exact ih
  refine ⟨by simp [ready, hlog], hiter, fun n => by rw [hiter n], ?_⟩
  intro hrun
  rw [writer_step_sleep s hrun (Or.inr hlog)]

/-- C9 witness: a running session whose handle is invalid. -/
theorem C9_writer_failure_witness :
    pulledState.logfile = false ∧ ready pulledState = false ∧
    iterWriter 3 pulledState = pulledState ∧
    (iterWriter 3 pulledState).file = pulledState.file ∧
    pulledState.is_running = true ∧ (writer_step pulledState).2 = WriterAct.slept := by
  refine ⟨by decide, ?_, ?_, ?_, by decide, ?_⟩
  · exact (C9_writer_failure pulledState (by decide)).1
  · exact (C9_writer_failure pulledState (by decide)).2.1 3
  · exact (C9_writer_failure pulledState (by decide)).2.2.1 3
  · exact (C9_writer_failure pulledState (by decide)).2.2.2 (by decide)

/-- C10: the slot written by `enqueue_line` is always the full LINE_BYTES
bytes with a NUL at offset LINE_BYTES-1; the stored C string is the input
truncated to LINE_BYTES-1 characters (so it never exceeds LINE_BYTES-1 and
inputs of any length are accepted, longer ones silently truncated), and
inputs of at most LINE_BYTES-1 characters are stored verbatim. -/
theorem C10_truncation (src : Line) (hnul : nulChar ∉ src) :
    (strncpy_slot src).length = LINE_BYTES ∧
    (strncpy_slot src)[LINE_BYTES - 1]? = some nulChar ∧
    c_str (strncpy_slot src) = truncLine src ∧
    (c_str (strncpy_slot src)).length ≤ LINE_BYTES - 1 ∧
    (src.length ≤ LINE_BYTES - 1 → c_str (strncpy_slot src) = src) := by
  have hshape := strncpy_slot_shape src
  have hAnul : ∀ a ∈ src.take (LINE_BYTES - 1), a ≠ nulChar := by
    intro a ha hEq
    apply hnul
    rw [← hEq]
    exact List.take_subset _ _ ha
  have hc : c_str (strncpy_slot src) = src.take (LINE_BYTES - 1) := by
    rw [hshape]
    exact c_str_append_replicate _ _ hAnul
  refine ⟨?_, ?_, hc, ?_, ?_⟩
  · rw [hshape]
    simp only [List.length_append, List.length_take, List.length_replicate]
    unfold LINE_BYTES
    omega
  · rw [hshape]
    have hlen : (src.take (LINE_BYTES - 1)).length ≤ LINE_BYTES - 1 := by
      simp only [List.length_take]
      omega
    rw [List.getElem?_append_right hlen]
    rw [List.getElem?_replicate]
    simp only [List.length_take]
    split
    · rfl
    · rename_i hcond
      exfalso
      unfold LINE_BYTES at hcond
      omega
  · rw [hc]
    simp only [List.length_take]
    omega
  · intro hle
    rw [hc]
    exact List.take_of_length_le hle

/-- C10 witness on a short concrete line. -/
theorem C10_truncation_witness :
    nulChar ∉ ([Char.ofNat 97, Char.ofNat 98] : Line) ∧
    c_str (strncpy_slot [Char.ofNat 97, Char.ofNat 98]) =
      truncLine [Char.ofNat 97, Char.ofNat 98] ∧
    c_str (strncpy_slot [Char.ofNat 97, Char.ofNat 98]) =
      [Char.ofNat 97, Char.ofNat 98] :=
  ⟨by decide,
   (C10_truncation [Char.ofNat 97, Char.ofNat 98] (by decide)).2.2.1,
   (C10_truncation [Char.ofNat 97, Char.ofNat 98] (by decide)).2.2.2.2 (by decide)⟩

end Slog

namespace Telem

set_option maxRecDepth 10000 in
/-- C6: after the first `set_waypoint_marker()` from boot, `get_mark()` yields
"MARK:wp=1"; an immediately following `get_mark()` yields ""; and setting two
markers with no intervening read leaves only the second ("MARK:wp=2"). -/
theorem C6_marker_single_use :
    (get_mark (set_waypoint_marker marker_boot)).2 = "MARK:wp=1" ∧
    (get_mark (get_mark (set_waypoint_marker marker_boot)).1).2 = "" ∧
    (get_mark (set_waypoint_marker (set_waypoint_marker marker_boot))).2 = "MARK:wp=2" := by
  decide

end Telem

namespace Slog

/-- State of the logger right after a successful `init` (header written,
queue empty, stats reset, running). -/
def s1Init : SlogState := (init_op true [Char.ofNat 104] boot).1

/-- C1: for every interleaved sequence of `enqueue_line` calls and writer-task
iterations from a session start (empty queue), the lines the writer appends to
the file are exactly the successfully enqueued lines (as stored, i.e.
truncated to LINE_BYTES-1 chars) in the same relative order with no
reordering, duplication or coalescing: file growth followed by the pending
queue contents equals the successful-enqueue sequence, and the two-index ring
refines a list queue holding at most QUEUE_SLOTS-1 elements. -/
theorem C1_fifo_refinement (es : List Ev) (s : SlogState)
    (hsess : ∀ e ∈ es, sessionEv e = true) (h : Inv s) (h0 : queue_size s = 0) :
    (run s es).file = s.file ++ wroteLines s es ∧
    wroteLines s es ++ absQ (run s es) = (enqOKs s es).map truncLine ∧
    (absQ (run s es)).length ≤ QUEUE_SLOTS - 1 := by
  obtain ⟨hf, hq, hi⟩ := fifo_invariant es s hsess h
  have habs0 : absQ s = [] := by
    unfold absQ
    rw [h0]
    rfl
  refine ⟨hf, ?_, ?_⟩
  · rw [hq, habs0, List.nil_append]
  · rw [absQ_length]
    exact queue_size_le _ hi

/-- C1 witness: two enqueues and one writer iteration from a fresh session. -/
theorem C1_fifo_refinement_witness :
    (∀ e ∈ ([Ev.enq [Char.ofNat 97], Ev.enq [Char.ofNat 98], Ev.wstep] : List Ev),
        sessionEv e = true) ∧
    Inv s1Init ∧ queue_size s1Init = 0 ∧
    ((run s1Init [Ev.enq [Char.ofNat 97], Ev.enq [Char.ofNat 98], Ev.wstep]).file =
        s1Init.file ++
          wroteLines s1Init [Ev.enq [Char.ofNat 97], Ev.enq [Char.ofNat 98], Ev.wstep] ∧
     wroteLines s1Init [Ev.enq [Char.ofNat 97], Ev.enq [Char.ofNat 98], Ev.wstep] ++
        absQ (run s1Init [Ev.enq [Char.ofNat 97], Ev.enq [Char.ofNat 98], Ev.wstep]) =
        (enqOKs s1Init [Ev.enq [Char.ofNat 97], Ev.enq [Char.ofNat 98], Ev.wstep]).map
          truncLine ∧
     (absQ (run s1Init [Ev.enq [Char.ofNat 97], Ev.enq [Char.ofNat 98], Ev.wstep])).length ≤
        QUEUE_SLOTS - 1) :=
  ⟨by decide, ⟨by decide, by decide⟩, by decide,
   C1_fifo_refinement [Ev.enq [Char.ofNat 97], Ev.enq [Char.ofNat 98], Ev.wstep] s1Init
     (by decide) ⟨by decide, by decide⟩ (by decide)⟩

/-- C2: in every state reachable from boot by any sequence of init,
enqueue_line, writer iterations, and close, the live entry count (length of
the abstract queue) equals (write_idx - read_idx) mod QUEUE_SLOTS and is at
most QUEUE_SLOTS - 1, and a successful enqueue never advances write_idx onto
read_idx. -/
theorem C2_depth_invariant (es : List Ev) :
    (absQ (run boot es)).length = queue_size (run boot es) ∧
    queue_size (run boot es) =
      ((run boot es).write_idx + QUEUE_SLOTS - (run boot es).read_idx) % QUEUE_SLOTS ∧
    queue_size (run boot es) ≤ QUEUE_SLOTS - 1 ∧
    (∀ l, (enqueue_line l (run boot es)).2 = true →
        (enqueue_line l (run boot es)).1.write_idx ≠
          (enqueue_line l (run boot es)).1.read_idx) := by
  have hInv := Inv_run es boot Inv_boot
  exact ⟨absQ_length _, queue_size_c_eq _ _ hInv.1 hInv.2, queue_size_le _ hInv,
    fun l hok => enqueue_no_overrun l _ hInv hok⟩

/-- C2 witness: a concrete reachable state and a successful enqueue on it. -/
theorem C2_depth_invariant_witness :
    (absQ (run boot [Ev.init true [Char.ofNat 104]])).length =
      queue_size (run boot [Ev.init true [Char.ofNat 104]]) ∧
    queue_size (run boot [Ev.init true [Char.ofNat 104]]) ≤ QUEUE_SLOTS - 1 ∧
    (enqueue_line [Char.ofNat 97] (run boot [Ev.init true [Char.ofNat 104]])).2 = true ∧
    (enqueue_line [Char.ofNat 97] (run boot [Ev.init true [Char.ofNat 104]])).1.write_idx ≠
      (enqueue_line [Char.ofNat 97] (run boot [Ev.init true [Char.ofNat 104]])).1.read_idx :=
  ⟨(C2_depth_invariant [Ev.init true [Char.ofNat 104]]).1,
   (C2_depth_invariant [Ev.init true [Char.ofNat 104]]).2.2.1,
   by decide,
   (C2_depth_invariant [Ev.init true [Char.ofNat 104]]).2.2.2 [Char.ofNat 97] (by decide)⟩

end Slog

namespace Slog

/-- The high-water update of slog.cpp lines 76-78:
`if (depth > stats.high_water) stats.high_water = depth;`. -/
def hwMax (a b : Nat) : Nat := if b > a then b else a

theorem observedDepths_cons_enq (s : SlogState) (l : Line) (es : List Ev) :
    observedDepths s (.enq l :: es) = observedDepths (step s (.enq l)) es := rfl

theorem observedDepths_cons_wstep (s : SlogState) (es : List Ev) :
    observedDepths s (.wstep :: es) =
      (match (writer_step s).2 with
       | .wrote _ => [queue_size s]
       | _ => []) ++ observedDepths (step s .wstep) es := rfl

theorem hw_enqueue (l : Line) (s : SlogState) :
    (enqueue_line l s).1.stats.high_water = s.stats.high_water := by
  rcases Bool.eq_false_or_eq_true (ready s) with hready | hready
  · rcases Bool.eq_false_or_eq_true (queue_full s) with hfull | hfull
    · rw [enqueue_line_full_eq l s hready hfull]
    · rw [enqueue_line_success_eq l s hready hfull]
  · rw [enqueue_line_not_ready l s hready]

theorem hw_fold (es : List Ev) (s : SlogState)
    (hsess : ∀ e ∈ es, sessionEv e = true) :
    (run s es).stats.high_water =
      (observedDepths s es).foldl hwMax s.stats.high_water := by
  induction es generalizing s with
  | nil => rfl
  | cons e es ih =>
    have hsess' : ∀ e' ∈ es, sessionEv e' = true :=
      fun e' he' => hsess e' (List.mem_cons_of_mem _ he')
    have hse : sessionEv e = true := hsess e (List.mem_cons_self _ _)
    cases e with
    | enq l =>
      rw [run_cons, observedDepths_cons_enq, ih (step s (.enq l)) hsess', step_enq,
        hw_enqueue l s]
    | wstep =>
      rw [run_cons, observedDepths_cons_wstep, step_wstep]
      rcases Bool.eq_false_or_eq_true s.is_running with hrun | hrun
      · rcases Bool.eq_false_or_eq_true s.logfile with hlog | hlog
        · rcases Bool.eq_false_or_eq_true (queue_empty s) with hne | hne
          · have he := writer_step_sleep s hrun (Or.inl hne)
            have hact : (writer_step s).2 = .slept := by rw [he]
            have hst : (writer_step s).1 = s := by rw [he]
            rw [hact, hst, List.nil_append, ih s hsess']
          · have hact : (writer_step s).2 = .wrote (s.ring s.read_idx) := by
              rw [writer_step_wrote_eq s hrun hlog hne]
            have hhw : (writer_step s).1.stats.high_water =
                hwMax s.stats.high_water (queue_size s) := by
              rw [writer_step_wrote_eq s hrun hlog hne]
              rfl
            rw [hact, List.singleton_append, List.foldl_cons,
              ih (writer_step s).1 hsess', hhw]
        · have he := writer_step_sleep s hrun (Or.inr hlog)
          have hact : (writer_step s).2 = .slept := by rw [he]
          have hst : (writer_step s).1 = s := by rw [he]
          rw [hact, hst, List.nil_append, ih s hsess']
      · have he := writer_step_not_running s hrun
        have hact : (writer_step s).2 = .exited := by rw [he]
        have hst : (writer_step s).1 = s := by rw [he]
        rw [hact, hst, List.nil_append, ih s hsess']
    | close => simp [sessionEv] at hse
    | init ok hd => simp [sessionEv] at hse

/-- C8 counterexample: after init and a single enqueue (the writer task not
yet scheduled), the queue depth is 1 but `stats.high_water` is still 0, so
"high_water is greater than or equal to every queue depth attained earlier in
that session" fails as stated: the depth is only sampled by the writer task
when it dequeues. -/
theorem C8_counterexample :
    queue_size (run boot [Ev.init true [Char.ofNat 104], Ev.enq [Char.ofNat 97]]) = 1 ∧
    (run boot [Ev.init true [Char.ofNat 104], Ev.enq [Char.ofNat 97]]).stats.high_water
      = 0 :=
  ⟨by decide, by decide⟩

/-- C8 (amended): throughout a session, `stats.high_water` equals the maximum
(under the code's `if depth > hw` update, folded in order) of the queue depths
observed by the Writer Task at its dequeue iterations since the session
started — not of every depth attained — and `init` resets it to zero. -/
theorem C8_high_water (es : List Ev) (s : SlogState)
    (hsess : ∀ e ∈ es, sessionEv e = true) :
    (run s es).stats.high_water =
      (observedDepths s es).foldl hwMax s.stats.high_water ∧
    (∀ hd, s.is_running = false → ((init_op true hd s).1).stats.high_water = 0) := by
  refine ⟨hw_fold es s hsess, ?_⟩
  intro hd hrun
  simp [init_op, hrun]

/-- C8 witness: enqueue twice, dequeue twice; the writer observes depths 2 and
1, and high_water ends at 2. -/
theorem C8_high_water_witness :
    (∀ e ∈ ([Ev.enq [Char.ofNat 97], Ev.enq [Char.ofNat 98], Ev.wstep, Ev.wstep] :
        List Ev), sessionEv e = true) ∧
    (run s1Init [Ev.enq [Char.ofNat 97], Ev.enq [Char.ofNat 98], Ev.wstep,
        Ev.wstep]).stats.high_water =
      (observedDepths s1Init [Ev.enq [Char.ofNat 97], Ev.enq [Char.ofNat 98], Ev.wstep,
        Ev.wstep]).foldl hwMax s1Init.stats.high_water ∧
    (observedDepths s1Init [Ev.enq [Char.ofNat 97], Ev.enq [Char.ofNat 98], Ev.wstep,
        Ev.wstep]) = [2, 1] ∧
    (run s1Init [Ev.enq [Char.ofNat 97], Ev.enq [Char.ofNat 98], Ev.wstep,
        Ev.wstep]).stats.high_water = 2 ∧
    boot.is_running = false ∧
    ((init_op true [Char.ofNat 104] boot).1).stats.high_water = 0 :=
  ⟨by decide,
   (C8_high_water [Ev.enq [Char.ofNat 97], Ev.enq [Char.ofNat 98], Ev.wstep, Ev.wstep]
      s1Init (by decide)).1,
   by decide, by decide, by decide,
   (C8_high_water ([] : List Ev) boot (by decide)).2 [Char.ofNat 104] (by decide)⟩

end Slog

namespace Telem

theorem tick_skip (div : Nat) (row : Slog.Line) (s : Slog.SlogState) (c : Nat)
    (h : Slog.ready s = true) (hmod : (c + 1) % div ≠ 0) :
    tuning_logger_tick div row s c = (s, c + 1, false) := by
  simp [tuning_logger_tick, throttled_logf, h, hmod]

theorem tick_fire (div : Nat) (row : Slog.Line) (s : Slog.SlogState) (c : Nat)
    (h : Slog.ready s = true) (hmod : (c + 1) % div = 0) :
    tuning_logger_tick div row s c =
      ((Slog.enqueue_line (Slog.truncLine row) s).1, c + 1,
       (Slog.enqueue_line (Slog.truncLine row) s).2) := by
  simp [tuning_logger_tick, throttled_logf, h, hmod]

theorem tickRun_succ (div : Nat) (rows : Nat → Slog.Line) (s : Slog.SlogState)
    (c n : Nat) :
    tickRun div rows s c (n + 1) =
      ((tuning_logger_tick div (rows n) (tickRun div rows s c n).1
          (tickRun div rows s c n).2.1).1,
       (tuning_logger_tick div (rows n) (tickRun div rows s c n).1
          (tickRun div rows s c n).2.1).2.1,
       (tickRun div rows s c n).2.2 +
         if (tuning_logger_tick div (rows n) (tickRun div rows s c n).1
              (tickRun div rows s c n).2.1).2.2 then 1 else 0) := rfl

theorem tickRun_div4 (rows : Nat → Slog.Line) (s : Slog.SlogState) (c : Nat)
    (hready : Slog.ready s = true) (hInv : Slog.Inv s) :
    ∀ n, Slog.queue_size s + ((c + n) / 4 - c / 4) ≤ Slog.QUEUE_SLOTS - 1 →
      (tickRun 4 rows s c n).2.1 = c + n ∧
      (tickRun 4 rows s c n).2.2 = (c + n) / 4 - c / 4 ∧
      Slog.queue_size (tickRun 4 rows s c n).1 =
        Slog.queue_size s + ((c + n) / 4 - c / 4) ∧
      Slog.ready (tickRun 4 rows s c n).1 = true ∧
      Slog.Inv (tickRun 4 rows s c n).1 := by
  intro n
  induction n with
  | zero =>
    intro _
    refine ⟨rfl, ?_, ?_, hready, hInv⟩
    · show (0 : Nat) = (c + 0) / 4 - c / 4
      omega
    · show Slog.queue_size s = Slog.queue_size s + ((c + 0) / 4 - c / 4)
      omega
  | succ n ih =>
    intro hroom
    have hroom' : Slog.queue_size s + ((c + n) / 4 - c / 4) ≤ Slog.QUEUE_SLOTS - 1 := by
      have hmono : (c + n) / 4 ≤ (c + (n + 1)) / 4 := Nat.div_le_div_right (by omega)
      omega
    obtain ⟨ihc, ihk, ihq, ihr, ihi⟩ := ih hroom'
    by_cases hmod : (c + n + 1) % 4 = 0
    · -- the n+1-st call is an enqueueing one
      have hk1 : (c + (n + 1)) / 4 - c / 4 = ((c + n) / 4 - c / 4) + 1 := by omega
      have hfull : Slog.queue_full (tickRun 4 rows s c n).1 = false := by
        apply Slog.queue_full_false_of_lt
        omega
      have hok : (Slog.enqueue_line (Slog.truncLine (rows n)) (tickRun 4 rows s c n).1).2
          = true := by
        rw [Slog.enqueue_line_success_eq _ _ ihr hfull]
      rw [tickRun_succ, ihc, tick_fire 4 (rows n) (tickRun 4 rows s c n).1 (c + n) ihr hmod]
      refine ⟨rfl, ?_, ?_, ?_, ?_⟩
      · show (tickRun 4 rows s c n).2.2 +
            (if (Slog.enqueue_line (Slog.truncLine (rows n))
                  (tickRun 4 rows s c n).1).2 = true then 1 else 0) =
          (c + (n + 1)) / 4 - c / 4
        rw [hok, ihk, hk1]
        simp
      · show Slog.queue_size
            (Slog.enqueue_line (Slog.truncLine (rows n)) (tickRun 4 rows s c n).1).1 =
          Slog.queue_size s + ((c + (n + 1)) / 4 - c / 4)
        rw [Slog.queue_size_enqueue _ _ ihi ihr hfull, ihq, hk1]
        omega
      · show Slog.ready
            (Slog.enqueue_line (Slog.truncLine (rows n)) (tickRun 4 rows s c n).1).1 = true
        rw [Slog.ready_enqueue]
        exact ihr
      · exact Slog.Inv_enqueue _ _ ihi
    · -- the n+1-st call is skipped by the throttle
      have hk0 : (c + (n + 1)) / 4 - c / 4 = (c + n) / 4 - c / 4 := by omega
      rw [tickRun_succ, ihc, tick_skip 4 (rows n) (tickRun 4 rows s c n).1 (c + n) ihr hmod]
      refine ⟨rfl, ?_, ?_, ihr, ihi⟩
      · show (tickRun 4 rows s c n).2.2 + (if false = true then 1 else 0) =
          (c + (n + 1)) / 4 - c / 4
        rw [ihk, hk0]
        simp
      · show Slog.queue_size (tickRun 4 rows s c n).1 =
          Slog.queue_size s + ((c + (n + 1)) / 4 - c / 4)
        rw [ihq, hk0]


/-- C5: with the divisor set by `set_log_rate(25)` (i.e. 4), 100 consecutive
`tuning_logger_tick` calls on a ready logger whose queue has room (never
full), with any starting value of `throttled_logf`'s static counter, enqueue
exactly 25 lines — one on every 4th value of the internal counter — advance
the counter by exactly 100, and deepen the queue by exactly 25. -/
theorem C5_rate_throttle (rows : Nat → Slog.Line) (s : Slog.SlogState) (c : Nat)
    (hready : Slog.ready s = true) (hInv : Slog.Inv s)
    (hroom : Slog.queue_size s + 25 ≤ Slog.QUEUE_SLOTS - 1) :
    (tickRun (set_log_rate 25) rows s c 100).2.2 = 25 ∧
    (tickRun (set_log_rate 25) rows s c 100).2.1 = c + 100 ∧
    Slog.queue_size (tickRun (set_log_rate 25) rows s c 100).1 =
      Slog.queue_size s + 25 := by
  have hdiv : set_log_rate 25 = 4 := rfl
  rw [hdiv]
  have hk : (c + 100) / 4 - c / 4 = 25 := by omega
  obtain ⟨h1, h2, h3, _, _⟩ := tickRun_div4 rows s c hready hInv 100 (by omega)
  exact ⟨by rw [h2, hk], h1, by rw [h3, hk]⟩

end Telem

namespace Telem

/-- C5 witness: a fresh session, counter starting at 0. -/
theorem C5_rate_throttle_witness :
    Slog.ready Slog.s1Init = true ∧
    Slog.queue_size Slog.s1Init + 25 ≤ Slog.QUEUE_SLOTS - 1 ∧
    (tickRun (set_log_rate 25) (fun _ => [Char.ofNat 120]) Slog.s1Init 0 100).2.2 = 25 ∧
    (tickRun (set_log_rate 25) (fun _ => [Char.ofNat 120]) Slog.s1Init 0 100).2.1 =
      0 + 100 ∧
    Slog.queue_size
        (tickRun (set_log_rate 25) (fun _ => [Char.ofNat 120]) Slog.s1Init 0 100).1 =
      Slog.queue_size Slog.s1Init + 25 :=
  ⟨by decide, by decide,
   (C5_rate_throttle (fun _ => [Char.ofNat 120]) Slog.s1Init 0 (by decide)
      ⟨by decide, by decide⟩ (by decide)).1,
   (C5_rate_throttle (fun _ => [Char.ofNat 120]) Slog.s1Init 0 (by decide)
      ⟨by decide, by decide⟩ (by decide)).2.1,
   (C5_rate_throttle (fun _ => [Char.ofNat 120]) Slog.s1Init 0 (by decide)
      ⟨by decide, by decide⟩ (by decide)).2.2⟩

end Telem
